import Mathlib

/-!
Verification of the Converter + Reflection Graph subsystem of a TypeScript
documentation generator (typedoc fork).  Each section embeds one part of the
source (or, where the deciding code is not part of the provided sources, a
model written from the specification, marked `Modelled from the spec:`) and
proves or refutes the specified properties about it.
-/

set_option maxHeartbeats 1000000

/-! ## Identity Registry (spec section 4.1) -/

namespace Registry

/-- Modelled from the spec: the Identity Registry ("allocates monotonically
increasing integer ids"; "`allocate(reflection) -> id` assigns the next integer";
"ids are dense and start at a fixed base") is not among the provided source
files; only its contract is specified.  The state is the next id to hand out. -/
structure IdentityRegistry where
  nextId : Nat
deriving Repr, DecidableEq

/-- Modelled from the spec: one allocation returns the next integer id and
advances the registry state. -/
def allocate (r : IdentityRegistry) : Nat × IdentityRegistry :=
  (r.nextId, ⟨r.nextId + 1⟩)

/-- The ids produced by a sequence of `n` allocation calls, in call order. -/
def allocateIds (r : IdentityRegistry) : Nat → List Nat
  | 0 => []
  | n + 1 =>
      let p := allocate r
      p.1 :: allocateIds p.2 n

theorem allocateIds_length (r : IdentityRegistry) (n : Nat) :
    (allocateIds r n).length = n := by
  induction n generalizing r with
  | zero => rfl
  | succ n ih => simp [allocateIds, allocate, ih]

theorem allocateIds_getElem (r : IdentityRegistry) (n i : Nat) (h : i < n) :
    (allocateIds r n)[i]? = some (r.nextId + i) := by
  induction n generalizing r i with
  | zero => omega
  | succ n ih =>
      cases i with
      | zero => simp [allocateIds, allocate]
      | succ i =>
          have hi : i < n := by omega
          simp [allocateIds, allocate, ih _ i hi]
          omega

end Registry

/-! ## Type hierarchy layers (spec section 4.5; `DeclarationHierarchy` from
`src/lib/models/reflections/declaration.ts`) -/

namespace Hierarchy

/-- A type value as far as the hierarchy computation needs it. -/
inductive Ty where
  | named (name : String)
deriving Repr, DecidableEq

/-- Mirrors the `DeclarationHierarchy` interface of
`src/lib/models/reflections/declaration.ts`: `types`, optional `next`,
optional `isTarget` (an absent optional boolean is falsy, so it is a `Bool`). -/
inductive DeclarationHierarchy where
  | mk (types : List Ty) (next : Option DeclarationHierarchy) (isTarget : Bool)
deriving Repr

def DeclarationHierarchy.types : DeclarationHierarchy → List Ty
  | .mk t _ _ => t

def DeclarationHierarchy.next : DeclarationHierarchy → Option DeclarationHierarchy
  | .mk _ n _ => n

def DeclarationHierarchy.isTarget : DeclarationHierarchy → Bool
  | .mk _ _ b => b

/-- Modelled from the spec: the Reference Resolver ("compute `typeHierarchy`
by walking `extendedTypes` recursively, producing one hierarchy layer per
ancestor level, tail-terminated, with the originating Declaration's layer
flagged `isTarget`") is not among the provided source files.  `levels` are the
ancestor levels (root-most first), `selfTypes` the types of the originating
declaration's own layer. -/
def computeHierarchy : List (List Ty) → List Ty → DeclarationHierarchy
  | [], selfTypes => .mk selfTypes none true
  | level :: rest, selfTypes => .mk level (some (computeHierarchy rest selfTypes)) false

/-- Number of layers in the chain flagged `isTarget`. -/
def countTargets : DeclarationHierarchy → Nat
  | .mk _ next b =>
      (if b then 1 else 0) +
        (match next with
         | some h => countTargets h
         | none => 0)

/-- The `types` of the first layer flagged `isTarget`, if any. -/
def targetTypes : DeclarationHierarchy → Option (List Ty)
  | .mk t next b =>
      if b then some t
      else
        match next with
        | some h => targetTypes h
        | none => none

end Hierarchy

/-! ## DeclarationReflection: signatures and serialization
(`src/lib/models/reflections/declaration.ts`) -/

namespace Serial

/-- A signature reflection, as far as these claims observe it. -/
structure SignatureReflection where
  name : String
  kind : Nat
deriving Repr, DecidableEq

/-- A type value, as far as serialization observes it. -/
inductive Ty where
  | intrinsic (name : String)
  | reference (name : String)
deriving Repr, DecidableEq

/-- Serialized form of a type. -/
structure TypeObject where
  typeKind : String
  name : String
deriving Repr, DecidableEq

/-- Modelled from the spec: `Type.toObject` lives in `../types/index`, which is
not among the provided source files; each variant serializes to its tag and
name. -/
def Ty.toObject : Ty → TypeObject
  | .intrinsic n => ⟨"intrinsic", n⟩
  | .reference n => ⟨"reference", n⟩

/-- The non-recursive fields of a `DeclarationReflection`
(`src/lib/models/reflections/declaration.ts` plus the inherited `id`, `name`,
`kind`). -/
structure DeclData where
  id : Nat
  name : String
  kind : Nat
  type : Option Ty
  defaultValue : Option String
  overwrites : Option Ty
  inheritedFrom : Option Ty
  implementationOf : Option Ty
  extendedTypes : Option (List Ty)
  extendedBy : Option (List Ty)
  implementedTypes : Option (List Ty)
  implementedBy : Option (List Ty)
  signatures : Option (List SignatureReflection)
  indexSignature : Option SignatureReflection
  getSignature : Option SignatureReflection
  setSignature : Option SignatureReflection
deriving Repr, DecidableEq

/-- A `DeclarationReflection` together with its (container) children. -/
inductive DeclarationReflection where
  | mk (data : DeclData) (children : List DeclarationReflection)
deriving Repr

def DeclarationReflection.data : DeclarationReflection → DeclData
  | .mk d _ => d

def DeclarationReflection.children : DeclarationReflection → List DeclarationReflection
  | .mk _ c => c

/-- `DeclarationReflection.getAllSignatures` translated from
`src/lib/models/reflections/declaration.ts`: start from the empty list, concat
`signatures` when present, then push `indexSignature`, `getSignature`,
`setSignature` when present.  (A JavaScript array is truthy even when empty,
so the `if (this.signatures)` test is exactly presence of the field.) -/
def DeclarationReflection.getAllSignatures (d : DeclarationReflection) :
    List SignatureReflection :=
  let result : List SignatureReflection := []
  let result := match d.data.signatures with
    | some ss => result ++ ss
    | none => result
  let result := match d.data.indexSignature with
    | some s => result ++ [s]
    | none => result
  let result := match d.data.getSignature with
    | some s => result ++ [s]
    | none => result
  let result := match d.data.setSignature with
    | some s => result ++ [s]
    | none => result
  result

/-- `hasGetterOrSetter` translated from the same file. -/
def DeclarationReflection.hasGetterOrSetter (d : DeclarationReflection) : Bool :=
  d.data.getSignature.isSome || d.data.setSignature.isSome

/-- Serialized form of a signature. -/
structure SignatureObject where
  name : String
  kind : Nat
deriving Repr, DecidableEq

/-- Modelled from the spec: signature serialization (schema of section 6). -/
def sigToObject (s : SignatureReflection) : SignatureObject :=
  ⟨s.name, s.kind⟩

/-- The keyed fields of a serialized reflection; `none` means the key is
entirely absent from the raw object. -/
structure ObjFields where
  id : Nat
  name : String
  kind : Nat
  signatures : Option (List SignatureObject)
  indexSignature : Option SignatureObject
  getSignature : Option SignatureObject
  setSignature : Option SignatureObject
  type : Option TypeObject
  defaultValue : Option String
  overwrites : Option TypeObject
  inheritedFrom : Option TypeObject
  implementationOf : Option TypeObject
  extendedTypes : Option (List TypeObject)
  extendedBy : Option (List TypeObject)
  implementedTypes : Option (List TypeObject)
  implementedBy : Option (List TypeObject)
deriving Repr, DecidableEq

/-- A serialized reflection: its keyed fields and the optional `children` key. -/
inductive ReflectionObject where
  | mk (fields : ObjFields) (children : Option (List ReflectionObject))
deriving Repr

def ReflectionObject.fields : ReflectionObject → ObjFields
  | .mk f _ => f

def ReflectionObject.children : ReflectionObject → Option (List ReflectionObject)
  | .mk _ c => c

/-- One conditional key assignment of `toObject`:
`if (this.type) result.type = this.type.toObject();`. -/
def addTypeKey (f : ObjFields) (o : Option Ty) : ObjFields :=
  match o with
  | some t => { f with type := some t.toObject }
  | none => f

/-- One conditional key assignment of `toObject`:
`if (this.defaultValue) result.defaultValue = this.defaultValue;` (a set but
empty string is falsy in JavaScript, so it adds no key). -/
def addDefaultValueKey (f : ObjFields) (o : Option String) : ObjFields :=
  match o with
  | some s => if s = "" then f else { f with defaultValue := some s }
  | none => f

/-- One conditional key assignment of `toObject`:
`if (this.overwrites) result.overwrites = this.overwrites.toObject();`. -/
def addOverwritesKey (f : ObjFields) (o : Option Ty) : ObjFields :=
  match o with
  | some t => { f with overwrites := some t.toObject }
  | none => f

/-- One conditional key assignment of `toObject`:
`if (this.inheritedFrom) result.inheritedFrom = this.inheritedFrom.toObject();`. -/
def addInheritedFromKey (f : ObjFields) (o : Option Ty) : ObjFields :=
  match o with
  | some t => { f with inheritedFrom := some t.toObject }
  | none => f

/-- One conditional key assignment of `toObject`:
`if (this.extendedTypes) result.extendedTypes = this.extendedTypes.map(t => t.toObject());`. -/
def addExtendedTypesKey (f : ObjFields) (o : Option (List Ty)) : ObjFields :=
  match o with
  | some ts => { f with extendedTypes := some (ts.map Ty.toObject) }
  | none => f

/-- One conditional key assignment of `toObject`:
`if (this.extendedBy) result.extendedBy = this.extendedBy.map(t => t.toObject());`. -/
def addExtendedByKey (f : ObjFields) (o : Option (List Ty)) : ObjFields :=
  match o with
  | some ts => { f with extendedBy := some (ts.map Ty.toObject) }
  | none => f

/-- One conditional key assignment of `toObject`:
`if (this.implementedTypes) result.implementedTypes = ...map(t => t.toObject());`. -/
def addImplementedTypesKey (f : ObjFields) (o : Option (List Ty)) : ObjFields :=
  match o with
  | some ts => { f with implementedTypes := some (ts.map Ty.toObject) }
  | none => f

/-- One conditional key assignment of `toObject`:
`if (this.implementedBy) result.implementedBy = ...map(t => t.toObject());`. -/
def addImplementedByKey (f : ObjFields) (o : Option (List Ty)) : ObjFields :=
  match o with
  | some ts => { f with implementedBy := some (ts.map Ty.toObject) }
  | none => f

/-- One conditional key assignment of `toObject`:
`if (this.implementationOf) result.implementationOf = this.implementationOf.toObject();`. -/
def addImplementationOfKey (f : ObjFields) (o : Option Ty) : ObjFields :=
  match o with
  | some t => { f with implementationOf := some t.toObject }
  | none => f

/-- `DeclarationReflection.toObject` translated from
`src/lib/models/reflections/declaration.ts`.  The `super.toObject()` part
(base `Reflection`/`ContainerReflection.toObject`) is not among the provided
source files and is modelled from the spec's schema of section 6: it emits
`id`, `name`, `kind` and, via the traversal of children, signatures and type
parameters, the optional `children`, `signatures`, `indexSignature`,
`getSignature`, `setSignature` keys (each present only when applicable).  The
derived method then conditionally adds `type`, `defaultValue`, `overwrites`,
`inheritedFrom`, `extendedTypes`, `extendedBy`, `implementedTypes`,
`implementedBy`, `implementationOf`, each guarded by JavaScript truthiness of
the field (for the string `defaultValue` that is presence and non-emptiness;
for object and array fields presence). -/
def DeclarationReflection.toObject : DeclarationReflection → ReflectionObject
  | .mk data children =>
    let base : ObjFields :=
      { id := data.id
        name := data.name
        kind := data.kind
        signatures := data.signatures.map (List.map sigToObject)
        indexSignature := data.indexSignature.map sigToObject
        getSignature := data.getSignature.map sigToObject
        setSignature := data.setSignature.map sigToObject
        type := none
        defaultValue := none
        overwrites := none
        inheritedFrom := none
        implementationOf := none
        extendedTypes := none
        extendedBy := none
        implementedTypes := none
        implementedBy := none }
    let childObjs : Option (List ReflectionObject) :=
      match children with
      | [] => none
      | cs => some (cs.attach.map (fun c => DeclarationReflection.toObject c.1))
    let f := base
    let f := addTypeKey f data.type
    let f := addDefaultValueKey f data.defaultValue
    let f := addOverwritesKey f data.overwrites
    let f := addInheritedFromKey f data.inheritedFrom
    let f := addExtendedTypesKey f data.extendedTypes
    let f := addExtendedByKey f data.extendedBy
    let f := addImplementedTypesKey f data.implementedTypes
    let f := addImplementedByKey f data.implementedBy
    let f := addImplementationOfKey f data.implementationOf
    .mk f childObjs
decreasing_by
  have := List.sizeOf_lt_of_mem c.2
  simp only [DeclarationReflection.mk.sizeOf_spec]
  omega

/-- JavaScript truthiness of an optional string field used as a serialized
value: a missing or empty string contributes no value. -/
def jsTruthyString (o : Option String) : Option String :=
  match o with
  | some s => if s = "" then none else some s
  | none => none

theorem addTypeKey_eq (f : ObjFields) (o : Option Ty) :
    addTypeKey f o = { f with type := (o.map Ty.toObject).or f.type } := by
  cases o <;> rfl

theorem addDefaultValueKey_eq (f : ObjFields) (o : Option String) :
    addDefaultValueKey f o = { f with defaultValue := (jsTruthyString o).or f.defaultValue } := by
  cases o with
  | none => rfl
  | some s =>
      simp only [addDefaultValueKey, jsTruthyString]
      split <;> simp_all

theorem addOverwritesKey_eq (f : ObjFields) (o : Option Ty) :
    addOverwritesKey f o = { f with overwrites := (o.map Ty.toObject).or f.overwrites } := by
  cases o <;> rfl

theorem addInheritedFromKey_eq (f : ObjFields) (o : Option Ty) :
    addInheritedFromKey f o = { f with inheritedFrom := (o.map Ty.toObject).or f.inheritedFrom } := by
  cases o <;> rfl

theorem addExtendedTypesKey_eq (f : ObjFields) (o : Option (List Ty)) :
    addExtendedTypesKey f o =
      { f with extendedTypes := (o.map (List.map Ty.toObject)).or f.extendedTypes } := by
  cases o <;> rfl

theorem addExtendedByKey_eq (f : ObjFields) (o : Option (List Ty)) :
    addExtendedByKey f o =
      { f with extendedBy := (o.map (List.map Ty.toObject)).or f.extendedBy } := by
  cases o <;> rfl

theorem addImplementedTypesKey_eq (f : ObjFields) (o : Option (List Ty)) :
    addImplementedTypesKey f o =
      { f with implementedTypes := (o.map (List.map Ty.toObject)).or f.implementedTypes } := by
  cases o <;> rfl

theorem addImplementedByKey_eq (f : ObjFields) (o : Option (List Ty)) :
    addImplementedByKey f o =
      { f with implementedBy := (o.map (List.map Ty.toObject)).or f.implementedBy } := by
  cases o <;> rfl

theorem addImplementationOfKey_eq (f : ObjFields) (o : Option Ty) :
    addImplementationOfKey f o =
      { f with implementationOf := (o.map Ty.toObject).or f.implementationOf } := by
  cases o <;> rfl

/-- The fully rewritten form of `toObject`: each key of the serialized object
as a function of the corresponding declaration field. -/
theorem toObject_eq (data : DeclData) (children : List DeclarationReflection) :
    DeclarationReflection.toObject (.mk data children) =
      .mk
        { id := data.id
          name := data.name
          kind := data.kind
          signatures := data.signatures.map (List.map sigToObject)
          indexSignature := data.indexSignature.map sigToObject
          getSignature := data.getSignature.map sigToObject
          setSignature := data.setSignature.map sigToObject
          type := data.type.map Ty.toObject
          defaultValue := jsTruthyString data.defaultValue
          overwrites := data.overwrites.map Ty.toObject
          inheritedFrom := data.inheritedFrom.map Ty.toObject
          implementationOf := data.implementationOf.map Ty.toObject
          extendedTypes := data.extendedTypes.map (List.map Ty.toObject)
          extendedBy := data.extendedBy.map (List.map Ty.toObject)
          implementedTypes := data.implementedTypes.map (List.map Ty.toObject)
          implementedBy := data.implementedBy.map (List.map Ty.toObject) }
        (match children with
         | [] => none
         | cs => some (cs.attach.map (fun c => DeclarationReflection.toObject c.1))) := by
  cases children with
  | nil =>
      rw [DeclarationReflection.toObject]
      simp only [addTypeKey_eq, addDefaultValueKey_eq, addOverwritesKey_eq,
        addInheritedFromKey_eq, addExtendedTypesKey_eq, addExtendedByKey_eq,
        addImplementedTypesKey_eq, addImplementedByKey_eq, addImplementationOfKey_eq,
        Option.or_none]
  | cons c cs =>
      rw [DeclarationReflection.toObject]
      case x_1 => simp
      simp only [addTypeKey_eq, addDefaultValueKey_eq, addOverwritesKey_eq,
        addInheritedFromKey_eq, addExtendedTypesKey_eq, addExtendedByKey_eq,
        addImplementedTypesKey_eq, addImplementedByKey_eq, addImplementationOfKey_eq,
        Option.or_none]

/-- A declaration data record with no optional field set. -/
def emptyData : DeclData :=
  { id := 0, name := "x", kind := 0, type := none, defaultValue := none,
    overwrites := none, inheritedFrom := none, implementationOf := none,
    extendedTypes := none, extendedBy := none, implementedTypes := none,
    implementedBy := none, signatures := none, indexSignature := none,
    getSignature := none, setSignature := none }

/-- The serialized signature count of `toObject` equals the length of
`getAllSignatures`. -/
theorem sigCount_toObject (data : DeclData) (children : List DeclarationReflection) :
    ((data.signatures.map (List.map sigToObject)).getD []).length +
        (data.indexSignature.map sigToObject).toList.length +
        (data.getSignature.map sigToObject).toList.length +
        (data.setSignature.map sigToObject).toList.length =
      (DeclarationReflection.mk data children).getAllSignatures.length := by
  cases hs : data.signatures <;> cases hi : data.indexSignature <;>
    cases hg : data.getSignature <;> cases ht : data.setSignature <;>
      simp [DeclarationReflection.getAllSignatures, DeclarationReflection.data, hs, hi, hg, ht]

/-- The basic shape of a reflection: name, kind, total signature count, and
the shapes of the children. -/
inductive Shape where
  | mk (name : String) (kind : Nat) (sigCount : Nat) (children : List Shape)
deriving Repr

/-- The shape of a declaration in the graph. -/
def shapeOfDecl : DeclarationReflection → Shape
  | .mk data children =>
      .mk data.name data.kind
        (DeclarationReflection.getAllSignatures (.mk data children)).length
        (children.attach.map (fun c => shapeOfDecl c.1))
decreasing_by
  have := List.sizeOf_lt_of_mem c.2
  simp only [DeclarationReflection.mk.sizeOf_spec]
  omega

/-- The shape re-derived from the serialized form alone: signature count is
the length of the `signatures` key (zero when absent) plus one for each of the
`indexSignature`, `getSignature`, `setSignature` keys that is present; absent
`children` means no children. -/
def shapeOfObject : ReflectionObject → Shape
  | .mk f children =>
      .mk f.name f.kind
        ((f.signatures.getD []).length + f.indexSignature.toList.length +
          f.getSignature.toList.length + f.setSignature.toList.length)
        (match children with
         | some cs => cs.attach.map (fun c => shapeOfObject c.1)
         | none => [])
decreasing_by
  have := List.sizeOf_lt_of_mem c.2
  simp only [ReflectionObject.mk.sizeOf_spec, Option.some.sizeOf_spec]
  omega

theorem shapeOfDecl_eq (data : DeclData) (children : List DeclarationReflection) :
    shapeOfDecl (.mk data children) =
      .mk data.name data.kind
        (DeclarationReflection.getAllSignatures (.mk data children)).length
        (children.map shapeOfDecl) := by
  rw [shapeOfDecl]
  simp [List.attach_map_val]

theorem shapeOfObject_eq (f : ObjFields) (children : Option (List ReflectionObject)) :
    shapeOfObject (.mk f children) =
      .mk f.name f.kind
        ((f.signatures.getD []).length + f.indexSignature.toList.length +
          f.getSignature.toList.length + f.setSignature.toList.length)
        ((children.getD []).map shapeOfObject) := by
  cases children <;> simp [shapeOfObject, List.attach_map_val]

theorem shape_roundtrip_aux :
    ∀ (n : Nat) (d : DeclarationReflection), sizeOf d ≤ n →
      shapeOfObject d.toObject = shapeOfDecl d := by
  intro n
  induction n with
  | zero =>
      intro d h
      rcases d with ⟨data, children⟩
      simp only [DeclarationReflection.mk.sizeOf_spec] at h
      omega
  | succ n ih =>
      intro d hd
      rcases d with ⟨data, children⟩
      rw [toObject_eq, shapeOfDecl_eq]
      cases children with
      | nil =>
          simp only [shapeOfObject_eq]
          rw [sigCount_toObject data []]
          simp
      | cons c cs =>
          simp only [shapeOfObject_eq]
          rw [sigCount_toObject data (c :: cs)]
          simp only [List.attach_map_val, Option.getD_some, List.map_map,
            Shape.mk.injEq, true_and]
          apply List.map_congr_left
          intro x hx
          have hsz : sizeOf x ≤ n := by
            have h1 := List.sizeOf_lt_of_mem hx
            simp only [DeclarationReflection.mk.sizeOf_spec] at hd
            omega
          exact ih x hsz

end Serial

/-! ## findReflectionByName (`src/lib/models/reflections/declaration.ts`) -/

namespace Find

mutual
/-- A type value as `findReflectionByName` observes it: reading `.reflection`
yields the resolved target for a resolved `ReferenceType` and `undefined`
(here `none`) for an unresolved reference or for a value that is not a
`ReferenceType` at all (the source reads the property through an unchecked
cast, which cannot fault on a defined object). -/
inductive Ty where
  | mk (reflection : Option Decl)

/-- A declaration as `findReflectionByName` observes it: name, children,
optional `extendedTypes`, optional parent. -/
inductive Decl where
  | mk (name : String) (children : List Decl) (extendedTypes : Option (List Ty))
      (parent : Option Decl)
end

def Ty.reflection : Ty → Option Decl
  | .mk r => r

def Decl.name : Decl → String
  | .mk n _ _ _ => n

def Decl.children : Decl → List Decl
  | .mk _ c _ _ => c

def Decl.extendedTypes : Decl → Option (List Ty)
  | .mk _ _ e _ => e

def Decl.parent : Decl → Option Decl
  | .mk _ _ _ p => p

/-- Modelled from the spec: `getChildByName` (on `ContainerReflection`, not
among the provided source files) looks children up by name, one level of the
name hierarchy at a time ("Children are looked up by name"; "The name to look
for. Might contain a hierarchy."). -/
def Decl.getChildByName (d : Decl) (names : List String) : Option Decl :=
  match names with
  | [] => none
  | [n] => d.children.find? (fun c => c.name == n)
  | n :: rest =>
      match d.children.find? (fun c => c.name == n) with
      | some c => c.getChildByName rest
      | none => none
termination_by names.length

theorem parent_sizeOf_lt (d p : Decl) (h : d.parent = some p) : sizeOf p < sizeOf d := by
  rcases d with ⟨nm, cs, ext, par⟩
  simp only [Decl.parent] at h
  subst h
  simp only [Decl.mk.sizeOf_spec, Option.some.sizeOf_spec]
  omega

theorem first_ext_reflection_sizeOf_lt (child : Decl) (fp : Ty) (rest : List Ty) (p : Decl)
    (h1 : child.extendedTypes = some (fp :: rest)) (h2 : fp.reflection = some p) :
    sizeOf p < sizeOf child := by
  rcases child with ⟨nm, cs, ext, par⟩
  simp only [Decl.extendedTypes] at h1
  subst h1
  rcases fp with ⟨r⟩
  simp only [Ty.reflection] at h2
  subst h2
  simp only [Decl.mk.sizeOf_spec, Option.some.sizeOf_spec, List.cons.sizeOf_spec,
    Ty.mk.sizeOf_spec]
  omega

mutual
/-- The local `walkTypeParents` function of `findReflectionByName`
(`src/lib/models/reflections/declaration.ts`), which captures `names` and
`searchUp` from the enclosing call.  It reads `parents[0].reflection` without
checking that `parents` is non-empty: on a present but empty `extendedTypes`
array (truthy in JavaScript) the read of `.reflection` on `undefined` throws,
modelled as `.error ()`. -/
def Decl.walkTypeParents (child : Decl) (names : List String) (searchUp : Bool) :
    Except Unit (Option Decl) :=
  match h1 : child.extendedTypes with
  | some parents =>
      match parents with
      | [] => .error ()
      | firstParent :: _ =>
          match h3 : firstParent.reflection with
          | some parentReflection =>
              match parentReflection.findReflectionByName names searchUp with
              | .ok (some ref) => .ok (some ref)
              | .ok none => .ok none
              | .error e => .error e
          | none => .ok none
  | none => .ok none
termination_by (sizeOf child, 0)
decreasing_by
  refine Prod.Lex.left _ _ ?_
  exact first_ext_reflection_sizeOf_lt child firstParent _ parentReflection h1 h3

/-- `findReflectionByName` translated from
`src/lib/models/reflections/declaration.ts`.  The result is in `Except Unit`:
`.error ()` is a thrown TypeError and `.ok none` the implicit `undefined`
return.  The inherited-member walk runs only when `searchUp` is truthy and
`extendedTypes` is present (any array, even empty, is truthy); the recursive
call on the parent passes no `searchUp` flag, exactly as the source does
(`this.parent.findReflectionByName(names)`). -/
def Decl.findReflectionByName (d : Decl) (names : List String) (searchUp : Bool) :
    Except Unit (Option Decl) :=
  match d.getChildByName names with
  | some reflection => .ok (some reflection)
  | none =>
      let walked : Except Unit (Option Decl) :=
        if searchUp && d.extendedTypes.isSome then d.walkTypeParents names searchUp
        else .ok none
      match walked with
      | .error e => .error e
      | .ok (some inheritedReflection) => .ok (some inheritedReflection)
      | .ok none =>
          match hp : d.parent with
          | some p =>
              match p.findReflectionByName names false with
              | .ok (some ref) => .ok (some ref)
              | .ok none => .ok none
              | .error e => .error e
          | none => .ok none
termination_by (sizeOf d, 1)
decreasing_by
  · exact Prod.Lex.right _ (Nat.lt_succ_self 0)
  · exact Prod.Lex.left _ _ (parent_sizeOf_lt d p hp)
end

/-- True when the result is a normal return, false when it is a thrown
TypeError. -/
def isOkB : Except Unit (Option Decl) → Bool
  | .ok _ => true
  | .error _ => false

/-- Every `extendedTypes` list that the `searchUp` walk can reach through
first extended types is non-empty where present (an empty list would make the
source fault on `parents[0].reflection`). -/
def Decl.safeExtChain : Decl → Bool
  | .mk _ _ extendedTypes _ =>
      match extendedTypes with
      | none => true
      | some [] => false
      | some (.mk none :: _) => true
      | some (.mk (some p) :: _) => p.safeExtChain

theorem find_false_isOk :
    ∀ (n : Nat) (d : Decl) (names : List String), sizeOf d ≤ n →
      isOkB (d.findReflectionByName names false) = true := by
  intro n
  induction n with
  | zero =>
      intro d names h
      rcases d with ⟨nm, cs, ext, par⟩
      simp only [Decl.mk.sizeOf_spec] at h
      omega
  | succ n ih =>
      intro d names hd
      rcases d with ⟨nm, cs, ext, par⟩
      rw [Decl.findReflectionByName]
      cases hc : (Decl.mk nm cs ext par).getChildByName names with
      | some r => simp [isOkB]
      | none =>
          simp only [Bool.false_and, Bool.false_eq_true, if_false, Decl.parent]
          cases par with
          | none => simp [isOkB]
          | some p =>
              have hp : sizeOf p ≤ n := by
                simp only [Decl.mk.sizeOf_spec, Option.some.sizeOf_spec] at hd
                omega
              have hok := ih p names hp
              cases hres : p.findReflectionByName names false with
              | ok v => cases v <;> simp [isOkB, hres]
              | error e => rw [hres] at hok; simp [isOkB] at hok

theorem find_true_isOk_of_safe :
    ∀ (n : Nat) (d : Decl) (names : List String), sizeOf d ≤ n →
      d.safeExtChain = true →
      isOkB (d.findReflectionByName names true) = true := by
  intro n
  induction n with
  | zero =>
      intro d names h _
      rcases d with ⟨nm, cs, ext, par⟩
      simp only [Decl.mk.sizeOf_spec] at h
      omega
  | succ n ih =>
      intro d names hd hsafe
      rcases d with ⟨nm, cs, ext, par⟩
      have hparn : ∀ p, par = some p → sizeOf p ≤ n := by
        intro p hpe
        subst hpe
        simp only [Decl.mk.sizeOf_spec, Option.some.sizeOf_spec] at hd
        omega
      rw [Decl.findReflectionByName]
      cases hc : (Decl.mk nm cs ext par).getChildByName names with
      | some r => simp [isOkB]
      | none =>
          cases ext with
          | none =>
              simp only [Decl.extendedTypes, Option.isSome_none, Bool.and_false,
                Bool.false_eq_true, if_false]
              simp only [Decl.parent]
              cases par with
              | none => simp [isOkB]
              | some p =>
                  have hok := find_false_isOk n p names (hparn p rfl)
                  cases hres : p.findReflectionByName names false with
                  | ok v => cases v <;> simp [isOkB, hres]
                  | error e => rw [hres] at hok; simp [isOkB] at hok
          | some parents =>
              simp only [Decl.extendedTypes, Option.isSome_some, Bool.and_true,
                Bool.true_and, if_true]
              rw [Decl.walkTypeParents]
              cases parents with
              | nil => simp [Decl.safeExtChain] at hsafe
              | cons firstParent rest =>
                  simp only [Decl.extendedTypes]
                  rcases firstParent with ⟨r⟩
                  cases r with
                  | none =>
                      simp only [Ty.reflection, Decl.parent]
                      cases par with
                      | none => simp [isOkB]
                      | some p =>
                          have hok := find_false_isOk n p names (hparn p rfl)
                          cases hres : p.findReflectionByName names false with
                          | ok v => cases v <;> simp [isOkB, hres]
                          | error e => rw [hres] at hok; simp [isOkB] at hok
                  | some p0 =>
                      have hp0 : sizeOf p0 ≤ n := by
                        simp only [Decl.mk.sizeOf_spec, Option.some.sizeOf_spec,
                          List.cons.sizeOf_spec, Ty.mk.sizeOf_spec] at hd
                        omega
                      have hsafe0 : p0.safeExtChain = true := by
                        simpa [Decl.safeExtChain] using hsafe
                      have hok0 := ih p0 names hp0 hsafe0
                      simp only [Ty.reflection]
                      cases hres0 : p0.findReflectionByName names true with
                      | ok v =>
                          cases v with
                          | none =>
                              simp only [hres0, Decl.parent]
                              cases par with
                              | none => simp [isOkB]
                              | some p =>
                                  have hok := find_false_isOk n p names (hparn p rfl)
                                  cases hres : p.findReflectionByName names false with
                                  | ok v2 => cases v2 <;> simp [isOkB, hres]
                                  | error e => rw [hres] at hok; simp [isOkB] at hok
                          | some r2 => simp [isOkB, hres0]
                      | error e => rw [hres0] at hok0; simp [isOkB] at hok0

/-- The fallback search the source performs after the inherited-member walk
found nothing: search the parent without `searchUp`, or return `undefined`
when there is no parent. -/
def parentFallback (par : Option Decl) (names : List String) : Except Unit (Option Decl) :=
  match par with
  | some p => p.findReflectionByName names false
  | none => .ok none

/-- `getChildByName` reads only the children, never `extendedTypes` or the
parent. -/
theorem getChildByName_ext_irrel (names : List String) (nm : String) (cs : List Decl)
    (e1 e2 : Option (List Ty)) (p1 p2 : Option Decl) :
    (Decl.mk nm cs e1 p1).getChildByName names = (Decl.mk nm cs e2 p2).getChildByName names := by
  match names with
  | [] => simp [Decl.getChildByName]
  | [n] => simp [Decl.getChildByName, Decl.children]
  | n :: m :: rest => simp [Decl.getChildByName, Decl.children]

end Find

/-! ## AccessorConverter (accessor converter source file) -/

namespace Accessor

/-- Reflection kinds as the accessor converter uses them.  In the source
these are bit flags; the converter only tests membership in
`ClassOrInterface` and equality with `Constant`. -/
inductive ReflectionKind where
  | accessorKind
  | constantKind
  | classKind
  | interfaceKind
  | otherKind
deriving Repr, DecidableEq

/-- The `scope.kind & ReflectionKind.ClassOrInterface` test. -/
def isClassOrInterface : ReflectionKind → Bool
  | .classKind => true
  | .interfaceKind => true
  | _ => false

/-- A parsed comment, as far as the converter reads it. -/
structure Comment where
  tags : List String
deriving Repr, DecidableEq

def Comment.hasTag (c : Comment) (tag : String) : Bool :=
  c.tags.contains tag

/-- The two node kinds the accessor converter supports. -/
inductive AccessorNodeKind where
  | getAccessor
  | setAccessor
deriving Repr, DecidableEq

/-- An accessor declaration node, as far as the converter reads it:
its syntax kind, the front end symbol identity, its comment
(`createComment`), and its type annotation (used by the Constant branch). -/
structure Node where
  kind : AccessorNodeKind
  symbolId : Nat
  comment : Option Comment
  typeName : String
deriving Repr, DecidableEq

/-- Signature kinds produced here. -/
inductive SigKind where
  | getSignatureKind
  | setSignatureKind
deriving Repr, DecidableEq

/-- A signature reflection, as far as these claims observe it. -/
structure Sig where
  name : String
  kind : SigKind
deriving Repr, DecidableEq

/-- Modelled from the spec: `createSignature` (converter factories, not among
the provided source files) converts the node into one signature reflection
with the given name and kind. -/
def createSignature (node : Node) (name : String) (kind : SigKind) : Sig :=
  ⟨name, kind⟩

/-- The declaration the accessor converter builds. -/
structure Declaration where
  kind : ReflectionKind
  getSignature : Option Sig
  setSignature : Option Sig
  type : Option String
deriving Repr, DecidableEq

/-- The converter context, as far as the accessor converter uses it: the kind
of the current scope and the Identity Registry symbol map (symbol identity to
declaration, most recent registration first). -/
structure Context where
  scopeKind : ReflectionKind
  registry : List (Nat × Declaration)
deriving Repr, DecidableEq

/-- Modelled from the spec: `createDeclaration` (converter factories, not
among the provided source files): "create-or-fetch a Declaration (fetch if
the symbol was already registered)"; a new declaration is registered into the
Identity Registry symbol map. -/
def createDeclaration (ctx : Context) (node : Node) (kind : ReflectionKind) :
    Declaration × Context :=
  match ctx.registry.lookup node.symbolId with
  | some d => (d, ctx)
  | none =>
      let d : Declaration :=
        { kind := kind, getSignature := none, setSignature := none, type := none }
      (d, { ctx with registry := (node.symbolId, d) :: ctx.registry })

/-- Replace the registered declaration of a symbol: in the source the
converter mutates the very object held by the registry, so writing a field is
visible through the symbol map. -/
def updateRegistry (reg : List (Nat × Declaration)) (sym : Nat) (d : Declaration) :
    List (Nat × Declaration) :=
  reg.map (fun p => if p.1 = sym then (sym, d) else p)

/-- The kind chosen by `convert`: `Accessor`, overridden to `Constant` when
the scope is a class or interface and the comment carries the `constant` tag
(the source guards with `comment && comment.hasTag('constant')`). -/
def computedKind (scopeKind : ReflectionKind) (node : Node) : ReflectionKind :=
  let kind := ReflectionKind.accessorKind
  if isClassOrInterface scopeKind then
    match node.comment with
    | some c => if c.hasTag "constant" then ReflectionKind.constantKind else kind
    | none => kind
  else kind

/-- `AccessorConverter.convert` translated from the accessor converter source
file: compute the comment and the kind, create or fetch the declaration by
symbol, then inside the declaration scope either set its `type` (Constant
branch) or set `getSignature` / `setSignature` according to the node kind.
The field write mutates the aliased registered object, mirrored here through
`updateRegistry`. -/
def convert (ctx : Context) (node : Node) : Option Declaration × Context :=
  let kind := computedKind ctx.scopeKind node
  let created := createDeclaration ctx node kind
  let declaration := created.1
  let ctx1 := created.2
  let declaration :=
    if kind = ReflectionKind.constantKind then
      { declaration with type := some node.typeName }
    else
      match node.kind with
      | .getAccessor =>
          { declaration with
              getSignature := some (createSignature node "__get" .getSignatureKind) }
      | .setAccessor =>
          { declaration with
              setSignature := some (createSignature node "__set" .setSignatureKind) }
  let ctx2 := { ctx1 with registry := updateRegistry ctx1.registry node.symbolId declaration }
  (some declaration, ctx2)

end Accessor

/-! ## JavascriptIndexPlugin (`src/lib/output/plugins/JavascriptIndexPlugin.ts`) -/

namespace Index

/-- What `onRendererBegin` reads of a reflection's parent: whether it is the
project root and its `getFullName()`. -/
structure ParentInfo where
  isProject : Bool
  fullName : String
deriving Repr, DecidableEq

/-- A reflection of the project as `onRendererBegin` observes it. -/
structure Reflection where
  isDeclaration : Bool
  url : Option String
  name : String
  isExternal : Bool
  kind : Nat
  cssClasses : String
  parent : Option ParentInfo
deriving Repr, DecidableEq

/-- One row of the generated search index. -/
structure Row where
  id : Nat
  kind : Nat
  fullName : String
  url : String
  classes : String
  parent : Option String
deriving Repr, DecidableEq

/-- The project: the flat reflections collection the loop iterates over. -/
structure ProjectReflection where
  reflections : List Reflection
deriving Repr, DecidableEq

/-- The renderer event: the project graph and the output directory. -/
structure RendererEvent where
  project : ProjectReflection
  outputDirectory : String
deriving Repr, DecidableEq

/-- One iteration of the `for (let key in event.project.reflections)` loop of
`onRendererBegin`, with the event state threaded explicitly: skip
non-declarations; skip reflections with a falsy `url` (absent or empty
string), a falsy or empty `name`, or the external flag; drop the parent when
it is the project; then push one row (its `id` is the current row count, its
`fullName` is prefixed by the parent full name when a parent remains). -/
def indexStep (s : RendererEvent × List Row) (reflection : Reflection) :
    RendererEvent × List Row :=
  let event := s.1
  let rows := s.2
  if !reflection.isDeclaration then (event, rows)
  else if reflection.url.getD "" == "" || reflection.name == "" ||
      reflection.isExternal || reflection.name == "" then (event, rows)
  else
    let parent : Option ParentInfo :=
      match reflection.parent with
      | some p => if p.isProject then none else some p
      | none => none
    let row : Row :=
      { id := rows.length
        kind := reflection.kind
        fullName :=
          match parent with
          | some p => p.fullName ++ "." ++ reflection.name
          | none => reflection.name
        url := reflection.url.getD ""
        classes := reflection.cssClasses
        parent := parent.map (fun p => p.fullName) }
    (event, rows ++ [row])

/-- `onRendererBegin` translated from `JavascriptIndexPlugin.ts`: one pass
over the project reflections builds the rows, then the search file is emitted
(the `writeFile` call is external I/O; the file path and its rows are
returned as data). -/
def onRendererBegin (event : RendererEvent) :
    (RendererEvent × List Row) × (String × List Row) :=
  let s := event.project.reflections.foldl indexStep (event, [])
  (s, (event.outputDirectory ++ "/assets/js/search.js", s.2))

theorem foldl_indexStep_event (rs : List Reflection) (event : RendererEvent)
    (rows : List Row) :
    (rs.foldl indexStep (event, rows)).1 = event := by
  induction rs generalizing rows with
  | nil => rfl
  | cons r rs ih =>
      rw [List.foldl_cons]
      have hstep : (indexStep (event, rows) r).1 = event := by
        rw [indexStep]
        split
        · rfl
        · split
          · rfl
          · rfl
      rcases hs : indexStep (event, rows) r with ⟨e2, rows2⟩
      rw [hs] at hstep
      simp at hstep
      subst hstep
      exact ih rows2

end Index

/-! ## Claim theorems (identity registry, hierarchy, serialization) -/

/-- C3: ids assigned by the Identity Registry are dense, monotonically
increasing integers starting at the registry base (`nextId`), and no two
allocation calls in one run return the same id; hence two distinct
allocations — and so two distinct reflections — never share an id. -/
theorem C3_identity_registry_ids (r : Registry.IdentityRegistry) (n i j : Nat)
    (hi : i < n) (hj : j < n) (hne : i ≠ j) :
    (Registry.allocateIds r n)[i]? = some (r.nextId + i) ∧
    (Registry.allocateIds r n)[i]? ≠ (Registry.allocateIds r n)[j]? := by
  refine ⟨Registry.allocateIds_getElem r n i hi, ?_⟩
  rw [Registry.allocateIds_getElem r n i hi, Registry.allocateIds_getElem r n j hj]
  simp only [ne_eq, Option.some.injEq]
  omega

/-- Witness for C3 at a concrete registry with base 10 and three allocations. -/
theorem C3_identity_registry_ids_witness :
    (Registry.allocateIds ⟨10⟩ 3)[0]? = some (10 + 0) ∧
    (Registry.allocateIds ⟨10⟩ 3)[0]? ≠ (Registry.allocateIds ⟨10⟩ 3)[1]? :=
  C3_identity_registry_ids ⟨10⟩ 3 0 1 (by decide) (by decide) (by decide)

/-- C4: every computed `typeHierarchy` chain carries exactly one layer with
`isTarget = true`, and that layer is the one holding the originating
declaration's own types. -/
theorem C4_typeHierarchy_single_target
    (levels : List (List Hierarchy.Ty)) (selfTypes : List Hierarchy.Ty) :
    Hierarchy.countTargets (Hierarchy.computeHierarchy levels selfTypes) = 1 ∧
    Hierarchy.targetTypes (Hierarchy.computeHierarchy levels selfTypes) = some selfTypes := by
  induction levels with
  | nil => simp [Hierarchy.computeHierarchy, Hierarchy.countTargets, Hierarchy.targetTypes]
  | cons l ls ih =>
      simp [Hierarchy.computeHierarchy, Hierarchy.countTargets, Hierarchy.targetTypes,
        ih.1, ih.2]

/-- C5 fails as stated: a declaration whose `defaultValue` field is set to the
empty string serializes with the `defaultValue` key entirely absent, because
`toObject` guards the key by JavaScript truthiness, not by presence. -/
theorem C5_counterexample_empty_defaultValue :
    (Serial.DeclarationReflection.mk
        { Serial.emptyData with defaultValue := some "" } []).toObject.fields.defaultValue
        = none ∧
    (Serial.DeclarationReflection.mk
        { Serial.emptyData with defaultValue := some "" } []).data.defaultValue
        = some "" := by
  constructor
  · rw [Serial.toObject_eq]
    simp [Serial.jsTruthyString, Serial.ReflectionObject.fields]
  · rfl

/-- C5 (amended): in the serialized object each of the keys `type`,
`overwrites`, `inheritedFrom`, `implementationOf`, `extendedTypes`,
`extendedBy`, `implementedTypes`, `implementedBy` is present exactly when the
corresponding field is set on the declaration, and `defaultValue` is present
exactly when the field is set to a non-empty string. -/
theorem C5_toObject_key_presence (d : Serial.DeclarationReflection) :
    d.toObject.fields.type.isSome = d.data.type.isSome ∧
    d.toObject.fields.overwrites.isSome = d.data.overwrites.isSome ∧
    d.toObject.fields.inheritedFrom.isSome = d.data.inheritedFrom.isSome ∧
    d.toObject.fields.implementationOf.isSome = d.data.implementationOf.isSome ∧
    d.toObject.fields.extendedTypes.isSome = d.data.extendedTypes.isSome ∧
    d.toObject.fields.extendedBy.isSome = d.data.extendedBy.isSome ∧
    d.toObject.fields.implementedTypes.isSome = d.data.implementedTypes.isSome ∧
    d.toObject.fields.implementedBy.isSome = d.data.implementedBy.isSome ∧
    d.toObject.fields.defaultValue = Serial.jsTruthyString d.data.defaultValue := by
  rcases d with ⟨data, children⟩
  rw [Serial.toObject_eq]
  simp [Serial.DeclarationReflection.data, Serial.ReflectionObject.fields]

/-- C6: serializing a reflection with `toObject` and re-deriving the basic
shape (name, kind, signature count, child structure) from the serialized form
yields exactly the shape of the original reflection. -/
theorem C6_serialization_shape_roundtrip (d : Serial.DeclarationReflection) :
    Serial.shapeOfObject d.toObject = Serial.shapeOfDecl d :=
  Serial.shape_roundtrip_aux (sizeOf d) d (Nat.le_refl _)

/-- C9: `getAllSignatures` returns exactly the `signatures` list in stored
order, then the `indexSignature`, then the `getSignature`, then the
`setSignature`, each of the three trailing entries included exactly when set;
when none are set the result is the empty list.  The embedding is a pure
function of the declaration, so the call modifies nothing. -/
theorem C9_getAllSignatures_concat (d : Serial.DeclarationReflection) :
    d.getAllSignatures =
      d.data.signatures.getD [] ++ d.data.indexSignature.toList ++
        d.data.getSignature.toList ++ d.data.setSignature.toList := by
  cases hs : d.data.signatures <;> cases hi : d.data.indexSignature <;>
    cases hg : d.data.getSignature <;> cases ht : d.data.setSignature <;>
      simp [Serial.DeclarationReflection.getAllSignatures, hs, hi, hg, ht]

/-- C7 fails as stated: on a declaration whose `extendedTypes` is present but
empty (an empty array is truthy in JavaScript, no entry of it is an
unresolved reference), a `searchUp` lookup of a name that is not a child
faults: the source reads `parents[0].reflection` and `parents[0]` is
`undefined`. -/
theorem C7_counterexample_empty_extendedTypes :
    Find.Decl.findReflectionByName (.mk "a" [] (some []) none) ["z"] true = .error () := by
  rw [Find.Decl.findReflectionByName]
  rw [Find.Decl.walkTypeParents]
  simp [Find.Decl.getChildByName, Find.Decl.children, Find.Decl.extendedTypes]

/-- C7 (amended): with `searchUp = true`, `findReflectionByName` terminates
without faulting — unresolved or non-reference entries fall through to the
parent search — provided every `extendedTypes` list reachable along first
extended parents is non-empty where present; a present-but-empty list faults
instead. -/
theorem C7_find_no_fault (d : Find.Decl) (names : List String)
    (h : d.safeExtChain = true) :
    Find.isOkB (d.findReflectionByName names true) = true :=
  Find.find_true_isOk_of_safe (sizeOf d) d names (Nat.le_refl _) h

/-- Witness for C7 at a declaration with an unresolved first extended type. -/
theorem C7_find_no_fault_witness :
    Find.Decl.safeExtChain (.mk "a" [] (some [.mk none]) none) = true ∧
    Find.isOkB
      (Find.Decl.findReflectionByName (.mk "a" [] (some [.mk none]) none) ["z"] true) = true :=
  ⟨by simp [Find.Decl.safeExtChain],
   C7_find_no_fault (.mk "a" [] (some [.mk none]) none) ["z"]
     (by simp [Find.Decl.safeExtChain])⟩

/-- C10: (1) a child found by `getChildByName` is returned directly, whatever
`searchUp` is; (2) with `searchUp` and a present `extendedTypes`, only the
first entry is consulted — the result is unchanged under any replacement of
the later entries; (3) when no child matches and the inherited walk is
skipped (`searchUp` false or `extendedTypes` absent), the result is exactly
the parent search without `searchUp`; (4) when the first extended type is
unresolved, or resolved but its subtree search misses, the walk falls back to
that same parent search; (5) when the search through the first extended
type's reflection hits, its result is returned. -/
theorem C10_find_order :
    (∀ (d : Find.Decl) (names : List String) (searchUp : Bool) (r : Find.Decl),
        d.getChildByName names = some r →
        d.findReflectionByName names searchUp = .ok (some r)) ∧
    (∀ (nm : String) (cs : List Find.Decl) (t : Find.Ty) (rest1 rest2 : List Find.Ty)
        (par : Option Find.Decl) (names : List String),
        Find.Decl.findReflectionByName (.mk nm cs (some (t :: rest1)) par) names true =
          Find.Decl.findReflectionByName (.mk nm cs (some (t :: rest2)) par) names true) ∧
    (∀ (d : Find.Decl) (names : List String) (searchUp : Bool),
        d.getChildByName names = none →
        searchUp = false ∨ d.extendedTypes = none →
        d.findReflectionByName names searchUp = Find.parentFallback d.parent names) ∧
    (∀ (nm : String) (cs : List Find.Decl) (rest : List Find.Ty)
        (par : Option Find.Decl) (names : List String),
        (Find.Decl.mk nm cs (some (.mk none :: rest)) par).getChildByName names = none →
        Find.Decl.findReflectionByName (.mk nm cs (some (.mk none :: rest)) par) names true =
          Find.parentFallback par names) ∧
    (∀ (nm : String) (cs : List Find.Decl) (p0 : Find.Decl) (rest : List Find.Ty)
        (par : Option Find.Decl) (names : List String),
        (Find.Decl.mk nm cs (some (.mk (some p0) :: rest)) par).getChildByName names = none →
        p0.findReflectionByName names true = .ok none →
        Find.Decl.findReflectionByName (.mk nm cs (some (.mk (some p0) :: rest)) par) names true =
          Find.parentFallback par names) ∧
    (∀ (nm : String) (cs : List Find.Decl) (p0 : Find.Decl) (rest : List Find.Ty)
        (par : Option Find.Decl) (names : List String) (r : Find.Decl),
        (Find.Decl.mk nm cs (some (.mk (some p0) :: rest)) par).getChildByName names = none →
        p0.findReflectionByName names true = .ok (some r) →
        Find.Decl.findReflectionByName (.mk nm cs (some (.mk (some p0) :: rest)) par) names true =
          .ok (some r)) := by
  refine ⟨?_, ?_, ?_, ?_, ?_, ?_⟩
  · intro d names searchUp r h
    rw [Find.Decl.findReflectionByName]
    simp [h]
  · intro nm cs t rest1 rest2 par names
    have hg := Find.getChildByName_ext_irrel names nm cs
      (some (t :: rest1)) (some (t :: rest2)) par par
    rw [Find.Decl.findReflectionByName, Find.Decl.findReflectionByName, hg]
    cases hc : (Find.Decl.mk nm cs (some (t :: rest2)) par).getChildByName names with
    | some r => simp
    | none =>
        simp only [Find.Decl.extendedTypes, Option.isSome_some, Bool.and_true,
          Bool.true_and, if_true]
        rw [Find.Decl.walkTypeParents, Find.Decl.walkTypeParents]
        simp only [Find.Decl.extendedTypes]
        rcases t with ⟨tr⟩
        cases tr with
        | none => simp [Find.Ty.reflection, Find.Decl.parent]
        | some p0 =>
            simp only [Find.Ty.reflection]
            cases hres0 : p0.findReflectionByName names true with
            | ok v => cases v <;> simp [Find.Decl.parent, hres0]
            | error e => simp [hres0]
  · intro d names searchUp hchild hskip
    rcases d with ⟨nm, cs, ext, par⟩
    rw [Find.Decl.findReflectionByName]
    rw [hchild]
    rcases hskip with hs | he
    · subst hs
      simp only [Bool.false_and, Bool.false_eq_true, if_false, Find.Decl.parent]
      split
      · rename_i p
        cases hres : p.findReflectionByName names false with
        | ok v => cases v <;> simp [Find.parentFallback, hres]
        | error e => simp [Find.parentFallback, hres]
      · simp [Find.parentFallback]
    · simp only [Find.Decl.extendedTypes] at he
      subst he
      simp only [Find.Decl.extendedTypes, Option.isSome_none, Bool.and_false,
        Bool.false_eq_true, if_false, Find.Decl.parent]
      split
      · rename_i p
        cases hres : p.findReflectionByName names false with
        | ok v => cases v <;> simp [Find.parentFallback, hres]
        | error e => simp [Find.parentFallback, hres]
      · simp [Find.parentFallback]
  · intro nm cs rest par names hchild
    rw [Find.Decl.findReflectionByName]
    rw [hchild]
    simp only [Find.Decl.extendedTypes, Option.isSome_some, Bool.and_true,
      Bool.true_and, if_true]
    rw [Find.Decl.walkTypeParents]
    simp only [Find.Decl.extendedTypes, Find.Ty.reflection, Find.Decl.parent]
    split
    · rename_i p
      cases hres : p.findReflectionByName names false with
      | ok v => cases v <;> simp [Find.parentFallback, hres]
      | error e => simp [Find.parentFallback, hres]
    · simp [Find.parentFallback]
  · intro nm cs p0 rest par names hchild hmiss
    rw [Find.Decl.findReflectionByName]
    rw [hchild]
    simp only [Find.Decl.extendedTypes, Option.isSome_some, Bool.and_true,
      Bool.true_and, if_true]
    rw [Find.Decl.walkTypeParents]
    simp only [Find.Decl.extendedTypes, Find.Ty.reflection, hmiss, Find.Decl.parent]
    split
    · rename_i p
      cases hres : p.findReflectionByName names false with
      | ok v => cases v <;> simp [Find.parentFallback, hres]
      | error e => simp [Find.parentFallback, hres]
    · simp [Find.parentFallback]
  · intro nm cs p0 rest par names r hchild hhit
    rw [Find.Decl.findReflectionByName]
    rw [hchild]
    simp only [Find.Decl.extendedTypes, Option.isSome_some, Bool.and_true,
      Bool.true_and, if_true]
    rw [Find.Decl.walkTypeParents]
    simp only [Find.Decl.extendedTypes, Find.Ty.reflection, hhit]

/-- Witness for C10 at a declaration with one child, found directly. -/
theorem C10_find_order_witness :
    Find.Decl.findReflectionByName
        (.mk "a" [.mk "b" [] none none] none none) ["b"] true =
      .ok (some (.mk "b" [] none none)) :=
  C10_find_order.1 (.mk "a" [.mk "b" [] none none] none none) ["b"] true
    (.mk "b" [] none none)
    (by simp [Find.Decl.getChildByName, Find.Decl.children, Find.Decl.name])

/-- C1 fails as stated: a getter with a `constant`-tagged comment converted in
a class scope takes the Constant branch, and the returned declaration has
neither `getSignature` nor `setSignature` set (its `type` is set instead). -/
theorem C1_counterexample_constant_getter :
    (Accessor.convert ⟨.classKind, []⟩
        ⟨.getAccessor, 1, some ⟨["constant"]⟩, "T"⟩).1 =
      some { kind := .constantKind, getSignature := none, setSignature := none,
             type := some "T" } := by
  decide

/-- C1 (amended): for every accessor node the converter converts, unless the
Constant branch applies (class or interface scope and a `constant`-tagged
comment; then the declaration gets kind Constant and its `type` set, with
neither signature), converting a getter sets `getSignature`, converting a
setter sets `setSignature`, and at least one of the two is set on the
returned declaration. -/
theorem C1_accessor_signatures (ctx : Accessor.Context) (node : Accessor.Node)
    (h : Accessor.computedKind ctx.scopeKind node ≠ .constantKind) :
    ∃ d, (Accessor.convert ctx node).1 = some d ∧
      (node.kind = .getAccessor → d.getSignature.isSome = true) ∧
      (node.kind = .setAccessor → d.setSignature.isSome = true) ∧
      (d.getSignature.isSome = true ∨ d.setSignature.isSome = true) := by
  cases hk : node.kind with
  | getAccessor =>
      refine ⟨{ (Accessor.createDeclaration ctx node
            (Accessor.computedKind ctx.scopeKind node)).1 with
          getSignature := some (Accessor.createSignature node "__get" .getSignatureKind) },
        ?_, ?_, ?_, ?_⟩
      · simp [Accessor.convert, hk, h]
      · intro _
        simp
      · intro hc
        exact Accessor.AccessorNodeKind.noConfusion hc
      · left
        simp
  | setAccessor =>
      refine ⟨{ (Accessor.createDeclaration ctx node
            (Accessor.computedKind ctx.scopeKind node)).1 with
          setSignature := some (Accessor.createSignature node "__set" .setSignatureKind) },
        ?_, ?_, ?_, ?_⟩
      · simp [Accessor.convert, hk, h]
      · intro hc
        exact Accessor.AccessorNodeKind.noConfusion hc
      · intro _
        simp
      · right
        simp

/-- Witness for C1 at a plain getter in a non-class scope. -/
theorem C1_accessor_signatures_witness :
    ∃ d, (Accessor.convert ⟨.otherKind, []⟩ ⟨.getAccessor, 1, none, "T"⟩).1 = some d ∧
      ((Accessor.Node.mk .getAccessor 1 none "T").kind = .getAccessor →
        d.getSignature.isSome = true) ∧
      ((Accessor.Node.mk .getAccessor 1 none "T").kind = .setAccessor →
        d.setSignature.isSome = true) ∧
      (d.getSignature.isSome = true ∨ d.setSignature.isSome = true) :=
  C1_accessor_signatures ⟨.otherKind, []⟩ ⟨.getAccessor, 1, none, "T"⟩ (by decide)

/-- C2 fails as stated: a `constant`-tagged getter and a plain setter sharing
symbol 1, converted in class scope, still merge into one declaration, but the
result has no `getSignature` (the getter took the Constant branch), so the
pair does not produce a declaration with both signatures set. -/
theorem C2_counterexample_constant_getter_pair :
    (Accessor.convert
        (Accessor.convert ⟨.classKind, []⟩
          ⟨.getAccessor, 1, some ⟨["constant"]⟩, "T"⟩).2
        ⟨.setAccessor, 1, none, "T"⟩).1 =
      some { kind := .constantKind, getSignature := none,
             setSignature := some ⟨"__set", .setSignatureKind⟩, type := some "T" } := by
  decide

/-- C2 (amended): a getter and a setter sharing one fresh symbol, neither
taking the Constant branch, produce exactly one declaration: the second
conversion fetches the declaration registered by the first and merges into it
instead of creating a new one, the result has both `getSignature` and
`setSignature` set, and the registry has grown by exactly one entry. -/
theorem C2_accessor_merging (ctx : Accessor.Context) (node1 node2 : Accessor.Node)
    (hfresh : ctx.registry.lookup node1.symbolId = none)
    (hsym : node2.symbolId = node1.symbolId)
    (hk1 : node1.kind = .getAccessor)
    (hk2 : node2.kind = .setAccessor)
    (hc1 : Accessor.computedKind ctx.scopeKind node1 ≠ .constantKind)
    (hc2 : Accessor.computedKind ctx.scopeKind node2 ≠ .constantKind) :
    ∃ d, (Accessor.convert (Accessor.convert ctx node1).2 node2).1 = some d ∧
      d.getSignature.isSome = true ∧
      d.setSignature.isSome = true ∧
      (Accessor.convert (Accessor.convert ctx node1).2 node2).2.registry.lookup
        node1.symbolId = some d ∧
      (Accessor.convert (Accessor.convert ctx node1).2 node2).2.registry.length =
        ctx.registry.length + 1 := by
  obtain ⟨sk, reg⟩ := ctx
  have h1 : Accessor.convert ⟨sk, reg⟩ node1 =
      (some { kind := Accessor.computedKind sk node1,
              getSignature := some ⟨"__get", .getSignatureKind⟩,
              setSignature := none, type := none },
       ⟨sk, (node1.symbolId,
          { kind := Accessor.computedKind sk node1,
            getSignature := some ⟨"__get", .getSignatureKind⟩,
            setSignature := none, type := none }) ::
          Accessor.updateRegistry reg node1.symbolId
            { kind := Accessor.computedKind sk node1,
              getSignature := some ⟨"__get", .getSignatureKind⟩,
              setSignature := none, type := none }⟩) := by
    simp only [Accessor.convert, Accessor.createDeclaration, hfresh, hk1,
      Accessor.createSignature, Accessor.updateRegistry, List.map_cons, if_pos rfl]
    rw [if_neg hc1]
    simp
  rw [h1]
  have h2 : Accessor.convert
      (⟨sk, (node1.symbolId,
          { kind := Accessor.computedKind sk node1,
            getSignature := some ⟨"__get", .getSignatureKind⟩,
            setSignature := none, type := none }) ::
          Accessor.updateRegistry reg node1.symbolId
            { kind := Accessor.computedKind sk node1,
              getSignature := some ⟨"__get", .getSignatureKind⟩,
              setSignature := none, type := none }⟩ : Accessor.Context) node2 =
      (some { kind := Accessor.computedKind sk node1,
              getSignature := some ⟨"__get", .getSignatureKind⟩,
              setSignature := some ⟨"__set", .setSignatureKind⟩, type := none },
       ⟨sk, (node1.symbolId,
          { kind := Accessor.computedKind sk node1,
            getSignature := some ⟨"__get", .getSignatureKind⟩,
            setSignature := some ⟨"__set", .setSignatureKind⟩, type := none }) ::
          Accessor.updateRegistry
            (Accessor.updateRegistry reg node1.symbolId
              { kind := Accessor.computedKind sk node1,
                getSignature := some ⟨"__get", .getSignatureKind⟩,
                setSignature := none, type := none })
            node1.symbolId
            { kind := Accessor.computedKind sk node1,
              getSignature := some ⟨"__get", .getSignatureKind⟩,
              setSignature := some ⟨"__set", .setSignatureKind⟩, type := none }⟩) := by
    simp only [Accessor.convert, Accessor.createDeclaration, hsym, hk2,
      Accessor.createSignature, List.lookup, beq_self_eq_true]
    rw [if_neg hc2]
    simp only [Accessor.updateRegistry, List.map_cons, if_pos rfl]
    simp
  rw [h2]
  refine ⟨_, rfl, rfl, rfl, ?_, ?_⟩
  · simp [List.lookup]
  · simp [Accessor.updateRegistry]

/-- Witness for C2 at a fresh getter/setter pair on symbol 5. -/
theorem C2_accessor_merging_witness :
    ∃ d, (Accessor.convert
        (Accessor.convert ⟨.otherKind, []⟩ ⟨.getAccessor, 5, none, "T"⟩).2
        ⟨.setAccessor, 5, none, "U"⟩).1 = some d ∧
      d.getSignature.isSome = true ∧
      d.setSignature.isSome = true ∧
      (Accessor.convert
        (Accessor.convert ⟨.otherKind, []⟩ ⟨.getAccessor, 5, none, "T"⟩).2
        ⟨.setAccessor, 5, none, "U"⟩).2.registry.lookup
        (Accessor.Node.mk .getAccessor 5 none "T").symbolId = some d ∧
      (Accessor.convert
        (Accessor.convert ⟨.otherKind, []⟩ ⟨.getAccessor, 5, none, "T"⟩).2
        ⟨.setAccessor, 5, none, "U"⟩).2.registry.length =
        (Accessor.Context.mk .otherKind []).registry.length + 1 :=
  C2_accessor_merging ⟨.otherKind, []⟩ ⟨.getAccessor, 5, none, "T"⟩
    ⟨.setAccessor, 5, none, "U"⟩
    (by decide) (by decide) (by decide) (by decide) (by decide) (by decide)

/-- C8: the index generation consumes the graph read-only: the event state
threaded explicitly through the row-building loop comes out unchanged, so no
reflection of the project is written, while the rows and the file data are
produced as separate outputs. -/
theorem C8_renderer_readonly (e : Index.RendererEvent) :
    (Index.onRendererBegin e).1.1 = e ∧
    (Index.onRendererBegin e).1.1.project.reflections = e.project.reflections := by
  have h := Index.foldl_indexStep_event e.project.reflections e []
  constructor
  · simpa [Index.onRendererBegin] using h
  · simp [Index.onRendererBegin, h]
